import Mathlib

/-!
Verification of the `local_cdn` repository against its specification.

The development shallowly embeds the relevant Rust sources:

* `src/service/dns/src/action/domain.rs` — the `NameTree` prefix trie and
  the `DomainAction` longest-suffix dispatcher;
* `src/service/dns/src/action/forward.rs` — the `Forward` failover loop;
* `src/service/dns/src/action.rs` — the `Upstream` resolver handle with
  timeout-driven reconstruction;
* `src/service/cache-proxy/proxy/src/lib.rs` and `main.rs` — the caching
  proxy service (`should_cache_req`, `add_uri_authority`, `req_upstream`,
  `forward`, `cached_or_forward`, `update_entry`, `get_missing`, `call`,
  `map_result`);
* `src/certgen/src/main.rs` — the `overwrite` regeneration decision.

DNS names are modelled as sequences of labels, each label a sequence of
bytes, matching the wire format the Rust code iterates over
(`Name::iter()` yields raw label byte slices).  The HTTP cache-policy
engine (`http_cache_semantics::CachePolicy`) is an external library that
the spec describes only abstractly (spec section 4.7), so it is modelled
as an opaque policy datum together with an arbitrary `PolicyEngine`
record of functions; likewise the network is modelled by oracle
functions giving each upstream call's outcome.
-/

/-- Decidable equality for `Except`, used to evaluate concrete runs. -/
instance exceptDecidableEq {E A : Type} [DecidableEq E] [DecidableEq A] :
    DecidableEq (Except E A)
  | .ok a, .ok b =>
      if h : a = b then .isTrue (by rw [h]) else .isFalse (fun hh => h (Except.ok.inj hh))
  | .ok _, .error _ => .isFalse (fun hh => Except.noConfusion hh)
  | .error _, .ok _ => .isFalse (fun hh => Except.noConfusion hh)
  | .error e, .error f =>
      if h : e = f then .isTrue (by rw [h])
      else .isFalse (fun hh => h (Except.error.inj hh))

namespace LocalCdnDns

/-- A DNS label: its raw bytes, as produced by `Name::iter()`. -/
abbrev Label := List Nat

/-- A DNS name: its labels in display order (host label first, TLD last). -/
abbrev DnsName := List Label

/--
The router's trie from `domain.rs`: each node holds an optional value and
a map from one label to a child node (`HashMap<Box<[u8]>, NameTree<A>>`,
modelled as an association list with unique keys).
-/
inductive NameTree (A : Type) : Type where
  | node (value : Option A) (child : List (Label × NameTree A))

namespace NameTree

variable {A : Type}

/-- Projection of the node's stored value. -/
def value : NameTree A → Option A
  | node v _ => v

/-- Projection of the node's child map. -/
def child : NameTree A → List (Label × NameTree A)
  | node _ c => c

/-- Model of `NameTree::new()`. -/
def new : NameTree A := node none []

/-- Model of `HashMap::get` on the child map. -/
def lookupChild (c : List (Label × NameTree A)) (l : Label) : Option (NameTree A) :=
  match c with
  | [] => none
  | (k, t) :: rest => if k = l then some t else lookupChild rest l

/-- Model of `HashMap::insert`-like update of the child map: replace the binding for
`l` if present, otherwise add it. -/
def setChild (c : List (Label × NameTree A)) (l : Label) (t1 : NameTree A) :
    List (Label × NameTree A) :=
  match c with
  | [] => [(l, t1)]
  | (k, t) :: rest => if k = l then (k, t1) :: rest else (k, t) :: setChild rest l t1

/--
Model of `NameTree::insert`: walk the key's labels (the Rust code iterates
`name.iter().rev()`, so the key here is already the reversed label list),
creating missing children via `entry().or_insert_with(Self::new)`, and
store the value at the final node.
-/
def insert (a : A) : List Label → NameTree A → NameTree A
  | [], t => node (some a) t.child
  | l :: ls, t =>
      node t.value (setChild t.child l (insert a ls ((lookupChild t.child l).getD new)))

/--
Model of `NameTree::get`: walk the key's labels, remembering the value of the
deepest visited node that has one; stop at the first missing child.
-/
def get : NameTree A → List Label → Option A
  | t, [] => t.value
  | t, l :: ls =>
      match lookupChild t.child l with
      | none => t.value
      | some c => (get c ls).orElse (fun _ => t.value)

/-- Value stored together with its depth: the deepest node along the key
that carries a value, with the number of labels consumed to reach it.
Used only to specify `get`. -/
def getDepth : NameTree A → List Label → Option (Nat × A)
  | t, [] => t.value.map (fun a => (0, a))
  | t, l :: ls =>
      match lookupChild t.child l with
      | none => t.value.map (fun a => (0, a))
      | some c =>
          match getDepth c ls with
          | some (d, a) => some (d + 1, a)
          | none => t.value.map (fun a => (0, a))

theorem lookupChild_setChild_self (c : List (Label × NameTree A)) (l : Label)
    (t1 : NameTree A) : lookupChild (setChild c l t1) l = some t1 := by
  induction c with
  | nil => simp [setChild, lookupChild]
  | cons p rest ih =>
      by_cases h : p.1 = l
      · simp [setChild, lookupChild, h]
      · simp [setChild, lookupChild, h, ih]

theorem lookupChild_setChild_ne (c : List (Label × NameTree A)) (l l1 : Label)
    (t1 : NameTree A) (h : l1 ≠ l) :
    lookupChild (setChild c l t1) l1 = lookupChild c l1 := by
  induction c with
  | nil =>
      simp only [setChild, lookupChild]
      rw [if_neg (fun hh => h hh.symm)]
  | cons p rest ih =>
      by_cases hp : p.1 = l
      · subst hp
        simp only [setChild, if_pos rfl, lookupChild]
        rw [if_neg (fun hh => h hh.symm), if_neg (fun hh => h hh.symm)]
      · simp only [setChild, if_neg hp, lookupChild]
        by_cases hq : p.1 = l1
        · simp [hq]
        · simp [hq, ih]

theorem getDepth_new (q : List Label) : getDepth (new : NameTree A) q = none := by
  cases q <;> simp [new, getDepth, value, child, lookupChild]

theorem get_eq_getDepth (t : NameTree A) (q : List Label) :
    get t q = (getDepth t q).map Prod.snd := by
  induction q generalizing t with
  | nil => cases h : t.value <;> simp [get, getDepth, h]
  | cons l ls ih =>
      cases hc : lookupChild t.child l with
      | none => cases h : t.value <;> simp [get, getDepth, hc, h]
      | some c =>
          cases hd : getDepth c ls with
          | none =>
              cases h : t.value <;>
                simp [get, getDepth, hc, hd, ih, h, Option.orElse]
          | some p =>
              simp [get, getDepth, hc, hd, ih, Option.orElse]

theorem getDepth_insert (a : A) (k : List Label) :
    ∀ (t : NameTree A) (q : List Label),
    getDepth (insert a k t) q =
      if k.isPrefixOf q then
        match getDepth t q with
        | some (d, b) => if d ≤ k.length then some (k.length, a) else some (d, b)
        | none => some (k.length, a)
      else getDepth t q := by
  induction k with
  | nil =>
      intro t q
      obtain ⟨v, c⟩ := t
      cases q with
      | nil =>
          cases v <;> simp [insert, getDepth, value, child, List.isPrefixOf]
      | cons l ls =>
          cases hc : lookupChild c l with
          | none =>
              cases v <;> simp [insert, getDepth, value, child, hc, List.isPrefixOf]
          | some c1 =>
              cases hd : getDepth c1 ls with
              | none =>
                  cases v <;>
                    simp [insert, getDepth, value, child, hc, hd, List.isPrefixOf]
              | some p =>
                  simp [insert, getDepth, value, child, hc, hd, List.isPrefixOf]
  | cons m ms ih =>
      intro t q
      obtain ⟨v, c⟩ := t
      cases q with
      | nil =>
          simp [insert, getDepth, value, child, List.isPrefixOf]
      | cons l ls =>
          by_cases hml : m = l
          · subst hml
            have hpre : List.isPrefixOf (m :: ms) (m :: ls) = (ms.isPrefixOf ls) := by
              simp [List.isPrefixOf]
            simp only [insert, getDepth, child, value, lookupChild_setChild_self, hpre]
            rw [ih]
            cases hc : lookupChild c m with
            | some c1 =>
                by_cases hp : ms.isPrefixOf ls
                · simp only [hp, if_pos]
                  cases hd : getDepth c1 ls with
                  | none =>
                      cases v <;> simp [hd, List.length_cons]
                  | some p =>
                      obtain ⟨d, b⟩ := p
                      by_cases hdl : d ≤ ms.length
                      · have h2 : d + 1 ≤ ms.length + 1 := Nat.succ_le_succ hdl
                        simp [hd, hdl, h2, List.length_cons]
                      · have h2 : ¬ d + 1 ≤ ms.length + 1 := fun hh =>
                          hdl (Nat.le_of_succ_le_succ hh)
                        simp [hd, hdl, h2, List.length_cons]
                · simp only [hp, Bool.false_eq_true, if_false]
                  cases hd : getDepth c1 ls <;> simp [hd]
            | none =>
                simp only [Option.getD_none, getDepth_new]
                by_cases hp : ms.isPrefixOf ls
                · cases v <;> simp [hp, List.length_cons]
                · cases v <;> simp [hp]
          · have hpre : List.isPrefixOf (m :: ms) (l :: ls) = false := by
              simp [List.isPrefixOf, hml]
            simp only [insert, getDepth, child, value, hpre, Bool.false_eq_true, if_false]
            rw [lookupChild_setChild_ne c m l _ (fun hh => hml hh.symm)]

/-- Insert a list of `(reversed key, value)` pairs in order, starting from
the empty tree (the loop in `DomainAction::from_config`). -/
def build (entries : List (List Label × A)) : NameTree A :=
  entries.foldl (fun t e => insert e.2 e.1 t) new

end NameTree

/-- One step of the longest-match specification: keep the better of the
accumulator and a new entry, where an entry competes only if its key is a
prefix of the query key and later entries win ties (mirroring that
re-inserting the same name overwrites the stored action). -/
def bestStep {A : Type} (q : List Label) (acc : Option (List Label × A))
    (e : List Label × A) : Option (List Label × A) :=
  if e.1.isPrefixOf q then
    match acc with
    | none => some e
    | some a => if a.1.length ≤ e.1.length then some e else some a
  else acc

/-- Specification of lookup on the built tree: the entry whose key is the
longest prefix of the query key, later entries winning ties. -/
def bestEntry {A : Type} (q : List Label) (entries : List (List Label × A)) :
    Option (List Label × A) :=
  entries.foldl (bestStep q) none

theorem getDepth_foldl_insert {A : Type} (q : List Label)
    (entries : List (List Label × A)) :
    ∀ (t : NameTree A) (acc : Option (List Label × A)),
    NameTree.getDepth t q = acc.map (fun e => (e.1.length, e.2)) →
    (∀ e, acc = some e → e.1.isPrefixOf q = true) →
    NameTree.getDepth (entries.foldl (fun t e => NameTree.insert e.2 e.1 t) t) q
        = (entries.foldl (bestStep q) acc).map (fun e => (e.1.length, e.2)) ∧
      (∀ e, entries.foldl (bestStep q) acc = some e → e.1.isPrefixOf q = true) := by
  induction entries with
  | nil => intro t acc h1 h2; exact ⟨h1, h2⟩
  | cons e rest ih =>
      intro t acc h1 h2
      simp only [List.foldl_cons]
      apply ih
      · rw [NameTree.getDepth_insert, h1]
        by_cases hp : e.1.isPrefixOf q
        · cases acc with
          | none => simp [bestStep, hp]
          | some a0 =>
              by_cases hl : a0.1.length ≤ e.1.length
              · simp [bestStep, hp, hl]
              · simp [bestStep, hp, hl]
        · simp [bestStep, hp]
      · intro e1 he1
        by_cases hp : e.1.isPrefixOf q
        · cases acc with
          | none =>
              simp only [bestStep, hp, if_pos] at he1
              cases he1; exact hp
          | some a0 =>
              simp only [bestStep, hp, if_pos] at he1
              by_cases hl : a0.1.length ≤ e.1.length
              · rw [if_pos hl] at he1; cases he1; exact hp
              · rw [if_neg hl] at he1; cases he1; exact h2 _ rfl
        · simp only [bestStep, hp, Bool.false_eq_true, if_false] at he1
          exact h2 e1 he1

theorem get_build_eq_bestEntry {A : Type} (entries : List (List Label × A))
    (q : List Label) :
    NameTree.get (NameTree.build entries) q = (bestEntry q entries).map Prod.snd := by
  have h := getDepth_foldl_insert q entries NameTree.new none
    (by rw [NameTree.getDepth_new]; rfl) (by intro e he; cases he)
  rw [NameTree.get_eq_getDepth, NameTree.build, bestEntry, h.1]
  cases entries.foldl (bestStep q) none <;> simp

/--
The domain router from `domain.rs`: a default action and a `NameTree`
holding the configured actions.  In the source the tree stores
`Arc<A>` handles shared between the domains of one config entry; shared
ownership is invisible to dispatch, so the model stores the value itself.
-/
structure DomainAction (A : Type) : Type where
  default : A
  domains : NameTree A

/-- Model of `DomainAction::from_config`: for each `(domains, action)` config entry,
insert every domain (keyed by its reversed label list) into the tree. -/
def DomainAction.fromConfig {A : Type} (defaultAction : A)
    (actions : List (List DnsName × A)) : DomainAction A :=
  { default := defaultAction
    domains := actions.foldl
      (fun t cfg => cfg.1.foldl (fun t d => NameTree.insert cfg.2 d.reverse t) t)
      NameTree.new }

/-- Model of `DomainAction::handle_request` dispatch: look the query name up in the
tree (the Rust code walks `name.iter().rev()`, hence the reversal) and fall
back to the default action. -/
def DomainAction.dispatch {A : Type} (d : DomainAction A) (n : DnsName) : A :=
  (d.domains.get n.reverse).getD d.default

/-- The flattened configuration: one `(domain, action)` pair per configured
domain, in insertion order. -/
def flatConfig {A : Type} : List (List DnsName × A) → List (DnsName × A)
  | [] => []
  | cfg :: rest => cfg.1.map (fun d => (d, cfg.2)) ++ flatConfig rest

/-- Specification written from the spec text: among the configured domains
that are suffixes of the query name at label boundaries, the longest one
(later config entries winning ties); `none` when no configured domain is a
suffix of the query name. -/
def longestConfiguredSuffix {A : Type} (entries : List (DnsName × A)) (n : DnsName) :
    Option (DnsName × A) :=
  entries.foldl
    (fun acc e =>
      if e.1.isSuffixOf n then
        match acc with
        | none => some e
        | some a => if a.1.length ≤ e.1.length then some e else some a
      else acc)
    none

theorem foldl_bestStep_of_rev {A : Type} (n : DnsName) (entries : List (DnsName × A)) :
    ∀ (acc : Option (DnsName × A)),
    entries.foldl
        (fun acc e =>
          if e.1.isSuffixOf n then
            match acc with
            | none => some e
            | some a => if a.1.length ≤ e.1.length then some e else some a
          else acc) acc
      = (List.foldl (bestStep n.reverse)
          (acc.map (fun e => (e.1.reverse, e.2)))
          (entries.map (fun e => (e.1.reverse, e.2)))).map
            (fun e => (e.1.reverse, e.2)) := by
  induction entries with
  | nil =>
      intro acc
      cases acc with
      | none => simp
      | some a => simp
  | cons e rest ih =>
      intro acc
      have hsuf : e.1.isSuffixOf n = (e.1.reverse.isPrefixOf n.reverse) := by
        simp [List.isSuffixOf]
      simp only [List.map_cons, List.foldl_cons]
      rw [ih]
      congr 1
      by_cases hp : e.1.reverse.isPrefixOf n.reverse
      · cases acc with
        | none => simp [bestStep, hsuf, hp]
        | some a0 =>
            by_cases hl : a0.1.length ≤ e.1.length
            · have hl1 : a0.1.reverse.length ≤ e.1.reverse.length := by
                simpa using hl
              simp [bestStep, hsuf, hp, hl, hl1]
            · have hl1 : ¬ a0.1.reverse.length ≤ e.1.reverse.length := by
                simpa using hl
              simp [bestStep, hsuf, hp, hl, hl1]
      · simp [bestStep, hsuf, hp]

theorem foldl_insert_flatConfig {A : Type} (actions : List (List DnsName × A)) :
    ∀ (t : NameTree A),
    actions.foldl
        (fun t cfg => cfg.1.foldl (fun t d => NameTree.insert cfg.2 d.reverse t) t) t
      = ((flatConfig actions).map (fun e => (e.1.reverse, e.2))).foldl
          (fun t e => NameTree.insert e.2 e.1 t) t := by
  induction actions with
  | nil => intro t; simp [flatConfig]
  | cons cfg rest ih =>
      intro t
      simp only [flatConfig, List.foldl_cons, List.map_append, List.foldl_append,
        List.map_map, List.foldl_map, Function.comp_def]
      rw [ih]
      simp only [List.foldl_map]

theorem flatten_fromConfig {A : Type} (defaultAction : A)
    (actions : List (List DnsName × A)) :
    (DomainAction.fromConfig defaultAction actions).domains
      = NameTree.build ((flatConfig actions).map (fun e => (e.1.reverse, e.2))) := by
  rw [DomainAction.fromConfig, NameTree.build]
  exact foldl_insert_flatConfig actions NameTree.new

/--
Claim C1: for every DNS query name `n` and every domain router built from a
configuration, dispatch selects the action associated with the longest
configured domain that is a suffix of `n` at label boundaries (names are
label sequences, so a key for `example.com` matches `a.example.com` and
`example.com` but not `notexample.com`); if no configured domain is a
suffix of `n`, the default action is invoked.
-/
theorem domain_dispatch_longest_suffix {A : Type} (defaultAction : A)
    (actions : List (List DnsName × A)) (n : DnsName) :
    (DomainAction.fromConfig defaultAction actions).dispatch n
      = ((longestConfiguredSuffix (flatConfig actions) n).map Prod.snd).getD
          defaultAction := by
  have hsnd : ∀ (o : Option (List Label × A)),
      (o.map (fun e => (e.1.reverse, e.2))).map Prod.snd = o.map Prod.snd := by
    intro o; cases o <;> rfl
  rw [DomainAction.dispatch, flatten_fromConfig, get_build_eq_bestEntry,
    longestConfiguredSuffix, foldl_bestStep_of_rev]
  rw [hsnd]
  rfl

/-- ASCII lowercase folding of one byte, as DNS case folding requires. -/
def lowerByte (b : Nat) : Nat :=
  if 65 ≤ b ∧ b ≤ 90 then b + 32 else b

/-- Lowercase folding of a whole name, label-wise. -/
def lowerName (n : DnsName) : DnsName :=
  n.map (fun l => l.map lowerByte)

/--
Entry point of `DomainAction::handle_request` as wire queries reach it:
`hickory-server` parses the question into a `LowerQuery`, whose
`LowerName` holds the ASCII-lowercased name, and `domain.rs` borrows that
lowercased `Name` for the tree lookup.  Configured domains, in contrast,
are deserialized `Name`s that keep their byte case and are inserted raw
(`l.to_vec()` in `NameTree::insert`).
-/
def DomainAction.handleQueryName {A : Type} (d : DomainAction A) (n : DnsName) : A :=
  d.dispatch (lowerName n)

/--
Claim C6 (code bug): the claim says labels are compared case-folded per
DNS rules both when inserting configured domains and when dispatching a
query name.  Dispatch does fold the query (via `LowerName`), but insertion
stores the configured labels byte-exactly, so a configured domain spelled
`EXAMPLE.com` matches neither `a.example.com` nor the byte-identical query
`EXAMPLE.com` (which arrives lowercased): both fall through to the default
action `0` instead of the configured action `1`.
-/
theorem uppercase_config_domain_never_matches :
    (DomainAction.fromConfig 0
        [([[[69, 88, 65, 77, 80, 76, 69], [99, 111, 109]]], 1)]).handleQueryName
        [[97], [101, 120, 97, 109, 112, 108, 101], [99, 111, 109]] = 0 ∧
    (DomainAction.fromConfig 0
        [([[[69, 88, 65, 77, 80, 76, 69], [99, 111, 109]]], 1)]).handleQueryName
        [[69, 88, 65, 77, 80, 76, 69], [99, 111, 109]] = 0 ∧
    (DomainAction.fromConfig 0
        [([[[101, 120, 97, 109, 112, 108, 101], [99, 111, 109]]], 1)]).handleQueryName
        [[69, 88, 65, 77, 80, 76, 69], [99, 111, 109]] = 1 := by
  decide

end LocalCdnDns

namespace LocalCdnDns

/-! The `Forward` action (`forward.rs`).  Its observable behaviour for one
request is a function of the ordered upstream list together with each
upstream's lookup outcome for the query, which we pass as an oracle list:
`(upstream name, lookup result)` in configured order. -/

/-- DNS response codes relevant to the forward loop. -/
inductive RCode : Type where
  | noError
  | servFail
  | nxDomain
  | other (code : Nat)
deriving DecidableEq, Repr

/-- Model of `ResolveErrorKind`, split exactly as `Forward::handle_request` needs:
`NoRecordsFound` carries the upstream's response code, everything else
(timeouts, I/O, ...) carries no code. -/
inductive ResolveFailure : Type where
  | noRecordsFound (code : RCode)
  | otherFailure (msg : String)
deriving DecidableEq, Repr

/-- The TXT record placed in the additional section on success:
`Record::from_rdata(q.name().into(), 0, TXT("upstream <name>"))`. -/
structure TxtRecord : Type where
  name : DnsName
  ttl : Nat
  txt : String
deriving DecidableEq, Repr

/-- A forward response: either a success message whose answer section is
the looked-up records and whose additional section is a TXT list, or an
`error_msg` response carrying only a response code. -/
inductive ForwardResponse (Rec : Type) : Type where
  | answer (answers : List Rec) (additionals : List TxtRecord)
  | errorMsg (code : RCode)
deriving DecidableEq

/-- One upstream's identity and its lookup outcome for the query. -/
abbrev UpstreamOutcome (Rec : Type) := String × Except ResolveFailure (List Rec)

/-- The loop body of `Forward::handle_request`: try upstreams in order,
returning on the first success; on failure remember the response code of
the most recent `NoRecordsFound`; when the list is exhausted answer
`error_msg` with the remembered code or `ServFail`. -/
def forwardLoop {Rec : Type} (q : DnsName) :
    List (UpstreamOutcome Rec) → Option RCode → ForwardResponse Rec
  | [], code => .errorMsg (code.getD .servFail)
  | (n, .ok recs) :: _, _ =>
      .answer recs [{ name := q, ttl := 0, txt := "upstream " ++ n }]
  | (_, .error e) :: rest, code =>
      forwardLoop q rest
        (match e with
         | .noRecordsFound c => some c
         | .otherFailure _ => code)

/-- Model of `Forward::handle_request`: the loop starts with no remembered code. -/
def Forward.handleRequest {Rec : Type} (q : DnsName)
    (resolvers : List (UpstreamOutcome Rec)) : ForwardResponse Rec :=
  forwardLoop q resolvers none

/-- Whether an upstream outcome is a failed lookup. -/
def isFailedLookup {Rec : Type} (r : UpstreamOutcome Rec) : Prop :=
  ∃ e, r.2 = .error e

/-- The response code of the last `NoRecordsFound` failure in the list, if
any — the value the loop's `code` variable holds after seeing the list. -/
def lastNoRecordsCode {Rec : Type} (rs : List (UpstreamOutcome Rec)) : Option RCode :=
  rs.foldl
    (fun acc r =>
      match r.2 with
      | .error (.noRecordsFound c) => some c
      | _ => acc)
    none

theorem forwardLoop_skips_failures {Rec : Type} (q : DnsName)
    (pre : List (UpstreamOutcome Rec)) (l : List (UpstreamOutcome Rec)) :
    (∀ r ∈ pre, isFailedLookup r) → ∀ (code : Option RCode),
    ∃ code1, forwardLoop q (pre ++ l) code = forwardLoop q l code1 := by
  induction pre with
  | nil => intro _ code; exact ⟨code, rfl⟩
  | cons r rest ih =>
      intro h code
      obtain ⟨e, he⟩ := h r (List.mem_cons_self r rest)
      obtain ⟨n, r2⟩ := r
      simp only at he
      subst he
      simp only [List.cons_append, forwardLoop]
      exact ih (fun r1 h1 => h r1 (List.mem_cons_of_mem _ h1)) _

theorem forwardLoop_all_failed {Rec : Type} (q : DnsName)
    (rs : List (UpstreamOutcome Rec)) :
    (∀ r ∈ rs, isFailedLookup r) → ∀ (code : Option RCode),
    forwardLoop q rs code
      = .errorMsg ((rs.foldl
          (fun acc r =>
            match r.2 with
            | .error (.noRecordsFound c) => some c
            | _ => acc) code).getD .servFail) := by
  induction rs with
  | nil => intro _ code; rfl
  | cons r rest ih =>
      intro h code
      obtain ⟨e, he⟩ := h r (List.mem_cons_self r rest)
      obtain ⟨n, r2⟩ := r
      simp only at he
      subst he
      cases e with
      | noRecordsFound c =>
          simp only [forwardLoop, List.foldl_cons]
          exact ih (fun r1 h1 => h r1 (List.mem_cons_of_mem _ h1)) _
      | otherFailure m =>
          simp only [forwardLoop, List.foldl_cons]
          exact ih (fun r1 h1 => h r1 (List.mem_cons_of_mem _ h1)) _

/--
Claim C4: for every Forward action and query, upstreams are tried in
order; at the first successful lookup the response's answer section is
exactly the returned records and its additional section is exactly one
TXT record `upstream <name>` with TTL 0 naming that upstream, and the
result does not depend on later upstreams (they are not tried); if every
upstream fails, the response is `error_msg` with the last remembered
`NoRecordsFound` response code, or `ServFail` when none was recorded.
-/
theorem forward_failover {Rec : Type} (q : DnsName)
    (pre post rs : List (UpstreamOutcome Rec)) (n : String) (recs : List Rec) :
    ((∀ r ∈ pre, isFailedLookup r) →
      Forward.handleRequest q (pre ++ (n, .ok recs) :: post)
        = .answer recs [{ name := q, ttl := 0, txt := "upstream " ++ n }]) ∧
    ((∀ r ∈ rs, isFailedLookup r) →
      Forward.handleRequest q rs = .errorMsg ((lastNoRecordsCode rs).getD .servFail)) := by
  constructor
  · intro h
    obtain ⟨code1, hc⟩ := forwardLoop_skips_failures q pre ((n, .ok recs) :: post) h none
    rw [Forward.handleRequest, hc]
    rfl
  · intro h
    exact forwardLoop_all_failed q rs h none

/-- Witness for `forward_failover`: first upstream times out, second
answers; and separately a two-failure run ending in the remembered
`NXDOMAIN` code. -/
theorem forward_failover_witness :
    Forward.handleRequest [[97]]
        [("u1", .error (.otherFailure "timeout")), ("u2", .ok [9])]
        = .answer [9] [{ name := [[97]], ttl := 0, txt := "upstream u2" }] ∧
    Forward.handleRequest ([[97]] : DnsName)
        ([("u1", .error (.noRecordsFound .nxDomain)),
          ("u2", .error (.otherFailure "io"))] : List (UpstreamOutcome Nat))
        = .errorMsg .nxDomain := by
  constructor
  · exact (forward_failover [[97]] [("u1", .error (.otherFailure "timeout"))] []
      [] "u2" [9]).1
      (by intro r hr
          simp only [List.mem_singleton] at hr
          exact ⟨.otherFailure "timeout", by rw [hr]⟩)
  · exact (forward_failover ([[97]] : DnsName) [] []
      ([("u1", .error (.noRecordsFound .nxDomain)),
        ("u2", .error (.otherFailure "io"))] : List (UpstreamOutcome Nat)) "" []).2
      (by intro r hr
          simp only [List.mem_cons, List.not_mem_nil, or_false] at hr
          cases hr with
          | inl h => exact ⟨.noRecordsFound .nxDomain, by rw [h]⟩
          | inr h => exact ⟨.otherFailure "io", by rw [h]⟩)

/--
Claim C10: a Forward action whose resolver list is empty responds with
`error_msg` carrying `ServFail` (the loop body never runs, so no upstream
is consulted and no response code is remembered).
-/
theorem forward_empty_servfail {Rec : Type} (q : DnsName) :
    Forward.handleRequest q ([] : List (UpstreamOutcome Rec)) = .errorMsg .servFail :=
  rfl

end LocalCdnDns

namespace LocalCdnDns

/-! The `Upstream` resolver handle (`action.rs`).  `lookup` races the
underlying resolver future against `tokio::time::timeout`; the raced
outcome is modelled by a flag saying whether the deadline expired plus the
result the inner future would have produced. -/

/-- The resolver instance: `AsyncResolver::tokio(config, options)` is a
value determined by the configuration and options it was built from. -/
structure Resolver (C O : Type) : Type where
  config : C
  options : O
deriving DecidableEq

/-- Model of `AsyncResolver::tokio`. -/
def Resolver.build {C O : Type} (config : C) (options : O) : Resolver C O :=
  { config := config, options := options }

/-- The `Upstream` handle: name, stored config and options, the timeout,
and the current resolver instance behind the `RwLock`. -/
structure Upstream (C O : Type) : Type where
  name : String
  config : C
  options : O
  timeoutSecs : Nat
  resolver : Resolver C O
deriving DecidableEq

/-- Lookup outcomes: an explicit timeout, or the underlying resolver's
resolve error. -/
inductive LookupError (E : Type) : Type where
  | timeout
  | resolve (e : E)
deriving DecidableEq

/--
Model of `Upstream::lookup`: if the deadline expired (`timedOut`), replace the
resolver instance with a freshly built `AsyncResolver::tokio(self.config,
self.options)` and return `ResolveErrorKind::Timeout`; otherwise return
the inner future's result unchanged and leave the handle alone.
-/
def Upstream.lookup {C O E L : Type} (u : Upstream C O) (timedOut : Bool)
    (inner : Except (LookupError E) L) :
    Upstream C O × Except (LookupError E) L :=
  if timedOut then
    ({ u with resolver := Resolver.build u.config u.options }, .error .timeout)
  else
    (u, inner)

/--
Claim C7: when a lookup exceeds the configured timeout, the handle
replaces its resolver instance with one freshly built from the stored
config and options, and returns an explicit timeout error whatever the
underlying future's result would have been (it is never propagated);
without a timeout the inner result passes through and the handle is
unchanged.
-/
theorem upstream_timeout_rebuilds {C O E L : Type} (u : Upstream C O)
    (inner : Except (LookupError E) L) :
    (Upstream.lookup u true inner).1.resolver = Resolver.build u.config u.options ∧
    (Upstream.lookup u true inner).1.config = u.config ∧
    (Upstream.lookup u true inner).1.options = u.options ∧
    (Upstream.lookup u true inner).2 = .error .timeout ∧
    Upstream.lookup u false inner = (u, inner) := by
  simp [Upstream.lookup]

end LocalCdnDns

namespace Certgen

/-! The certificate tool's regeneration decision (`certgen/src/main.rs`). -/

/-- The `overwrite` policy from the config file. -/
inductive OverwritePolicy : Type where
  | always
  | expired
  | never
deriving DecidableEq, Repr

/-- The state file contents: recorded expiry instant and the SHA-256 of
the config file that generated the certificates. -/
structure CertState : Type where
  expire : Nat
  configSha256 : List Nat
deriving DecidableEq, Repr

/--
The `overwrite` function: `stateFile` is `none` when the state file does
not exist, `some (.error e)` when it exists but fails to read or parse
(the run aborts), and `some (.ok st)` when parsed.  `caExists` is
`ca_path.exists()` for `<ca_dir>/<ca_name>.pem`, `time` the current time,
`configSha256` the hash of the current config file.
-/
def overwrite (stateFile : Option (Except String CertState)) (caExists : Bool)
    (policy : OverwritePolicy) (time : Nat) (configSha256 : List Nat) :
    Except String Bool :=
  match stateFile with
  | none => .ok true
  | some (.error e) => .error e
  | some (.ok oldState) =>
      if oldState.configSha256 ≠ configSha256 ∨ caExists = false then .ok true
      else
        .ok (match policy with
             | .always => true
             | .expired => decide (oldState.expire ≤ time)
             | .never => false)

/--
Claim C8: with an existing, parseable state file, `overwrite` decides to
regenerate if and only if the recorded config hash differs from the hash
of the current config, or the CA certificate file is missing, or the
policy is `always`, or the policy is `expired` and the recorded expiry is
not after the current time; with the state file missing it always decides
to regenerate, regardless of policy.
-/
theorem certgen_overwrite_iff (st : CertState) (caExists : Bool)
    (policy : OverwritePolicy) (time : Nat) (configSha256 : List Nat) :
    overwrite (some (.ok st)) caExists policy time configSha256
      = .ok (decide (st.configSha256 ≠ configSha256)
          || !caExists
          || (policy == .always)
          || ((policy == .expired) && decide (st.expire ≤ time))) ∧
    overwrite none caExists policy time configSha256 = .ok true := by
  constructor
  · by_cases h1 : st.configSha256 = configSha256
    · cases caExists with
      | false => simp [overwrite, h1]
      | true => cases policy <;> simp [overwrite, h1]
    · cases caExists <;> cases policy <;> simp [overwrite, h1]
  · rfl

end Certgen

namespace LocalCdnProxy

/-! The caching proxy (`cache-proxy/proxy/src/lib.rs`).

The HTTP pieces are modelled structurally: headers as association lists
with `HeaderMap`-style insert/remove, URIs as optional scheme/authority
plus the `path?query` string.  The policy engine
(`http_cache_semantics::CachePolicy`) is opaque to the proxy and is
modelled by an arbitrary record of functions over an opaque policy datum
`P`; the network is modelled by oracle functions giving the outcome of
each outbound call; `SystemTime::now()` readings are passed in as
explicit instants.  `cacache` plus the `ciborium` encoding of entries is
modelled as a keyed store of structured entries (serialization is a
faithful roundtrip); the store's I/O-failure results (`ReadCache`,
`WriteCache`, `Decode`), which cannot occur in this pure store, are the
only branches of `call` not reached by the model. -/

/-- Body bytes. -/
abbrev Bytes := List Nat

/-- An authority (`host[:port]`). -/
abbrev Authority := String

/-- A header map, as a name-value association list. -/
abbrev Headers := List (String × String)

/-- Model of `HeaderMap::get`. -/
def getH (h : Headers) (n : String) : Option String :=
  (h.find? (fun p => p.1 == n)).map Prod.snd

/-- Model of `HeaderMap::remove` (drops every value for the name). -/
def removeH (h : Headers) (n : String) : Headers :=
  h.filter (fun p => p.1 != n)

/-- Model of `HeaderMap::insert` (replaces any previous values for the name). -/
def insertH (h : Headers) (n v : String) : Headers :=
  (n, v) :: removeH h n

/-- Model of `HeaderMap::contains_key`. -/
def containsH (h : Headers) (n : String) : Bool :=
  (getH h n).isSome

/-- Request methods. -/
inductive Method : Type where
  | GET
  | POST
  | HEAD
  | other (m : String)
deriving DecidableEq, Repr

/-- URI parts: scheme, authority and the `path?query` string (an
origin-form client request has no scheme or authority). -/
structure Uri : Type where
  scheme : Option String
  authority : Option Authority
  pathQuery : Option String
deriving DecidableEq, Repr

/-- Request parts (`http::request::Parts`): method, URI, headers. -/
structure ReqParts : Type where
  method : Method
  uri : Uri
  headers : Headers
deriving DecidableEq, Repr

/-- Response parts (`http::response::Parts`): status and headers. -/
structure RespParts : Type where
  status : Nat
  headers : Headers
deriving DecidableEq, Repr

/-- Model of `ProxyError`, with external error payloads rendered as strings. -/
inductive ProxyError : Type where
  | missingHost
  | invalidHost (value : String)
  | unexpectedHost (a : Authority)
  | invalidUri
  | invalidPath (p : String)
  | upstream (e : String)
  | boxedUpstream (e : String)
  | readCache (e : String)
  | writeCache (e : String)
  | decode (e : String)
deriving DecidableEq, Repr

/-- Model of `should_cache_req`: cacheable iff the method is GET and there is no
`Authorization` header. -/
def should_cache_req (r : ReqParts) : Bool :=
  (r.method == Method.GET) && !(containsH r.headers "authorization")

/-- Model of `BeforeRequest` of the policy engine. -/
inductive BeforeRequest : Type where
  | fresh (parts : RespParts)
  | stale (entryMatches : Bool) (request : ReqParts)
deriving DecidableEq, Repr

/-- Model of `AfterResponse` of the policy engine (the response parts it also
carries are ignored by the proxy, so they are omitted). -/
inductive AfterResponse (P : Type) : Type where
  | modified (policy : P)
  | notModified (policy : P)
deriving DecidableEq, Repr

/-- Outcome of one call on the upstream (decompression) pipeline: a
connection/HTTP failure, or response parts whose already-decoded body
either collects to bytes or fails while being collected. -/
inductive UpstreamResult : Type where
  | fail (e : String)
  | respond (parts : RespParts) (body : Except String Bytes)
deriving DecidableEq, Repr

/--
The proxy's environment: the `Authority::try_from` parser, the opaque
policy engine over the policy datum `P` (spec section 4.7), and the two
network pipelines of `CacheProxy` — `upstream` (decompressing, used by
`req_upstream`) and `forwarded` (streaming, used by `forward`), whose
response bodies have the abstract streamed type `SB`.
-/
structure ProxyEnv (P SB : Type) : Type where
  parseAuth : String → Option Authority
  isStorable : P → Bool
  beforeRequest : P → ReqParts → Nat → BeforeRequest
  afterResponse : P → ReqParts → RespParts → Nat → AfterResponse P
  mkPolicy : ReqParts → RespParts → P
  upstreamCall : ReqParts → UpstreamResult
  forwardCall : ReqParts → Except String (RespParts × SB)

/-- A cache entry: policy object plus fully buffered body bytes. -/
structure CacheEntry (P : Type) : Type where
  policy : P
  body : Bytes
deriving DecidableEq, Repr

/-- The on-disk `cacache` store under the proxy root, as a keyed map. -/
abbrev Store (P : Type) := List (String × CacheEntry P)

/-- Model of `cacache::read_sync` (hit or `EntryNotFound`). -/
def Store.read {P : Type} (s : Store P) (k : String) : Option (CacheEntry P) :=
  (s.find? (fun p => p.1 == k)).map Prod.snd

/-- Model of `cacache::write_sync` (last writer wins for the key). -/
def Store.write {P : Type} (s : Store P) (k : String) (e : CacheEntry P) : Store P :=
  (k, e) :: s.filter (fun p => p.1 != k)

/-- The proxy instance state the claims depend on: the cache store and the
pinned authority. -/
structure CacheProxy (P : Type) : Type where
  store : Store P
  authority : Authority

/-- A response body handed to the client: either a streamed upstream body
(forwarded path) or fully buffered bytes (cached or error path). -/
inductive RespBody (SB : Type) : Type where
  | stream (b : SB)
  | full (b : Bytes)
deriving DecidableEq, Repr

/-- A response to the client. -/
structure CachedResponse (SB : Type) : Type where
  parts : RespParts
  body : RespBody SB
deriving DecidableEq, Repr

/-- Model of `ProxyFuture::cached`: insert `Cache-Control: no-store` into the
response parts and attach the buffered cached body. -/
def cachedResponse {SB : Type} (parts : RespParts) (body : Bytes) : CachedResponse SB :=
  { parts := { parts with headers := insertH parts.headers "cache-control" "no-store" }
    body := .full body }

/-- Model of `add_uri_authority`: read and parse the `Host` header, reject it when
it differs from the pinned upstream authority, otherwise rewrite the URI
to scheme `https` and that authority. -/
def add_uri_authority (upstreamHost : Authority)
    (parseAuth : String → Option Authority) (pts : ReqParts) :
    Except ProxyError ReqParts :=
  match getH pts.headers "host" with
  | none => .error .missingHost
  | some hv =>
      match parseAuth hv with
      | none => .error (.invalidHost hv)
      | some host =>
          if host ≠ upstreamHost then .error (.unexpectedHost host)
          else .ok { pts with
            uri := { pts.uri with scheme := some "https", authority := some host } }

/-- Model of `cache_key`: the request's `path?query`, or the empty string. -/
def cache_key (r : ReqParts) : String :=
  r.uri.pathQuery.getD ""

/-- The normalized copy of the incoming request used for cache key and
policy computations: the original parts with `Accept-Encoding` removed. -/
def normalize (r : ReqParts) : ReqParts :=
  { r with headers := removeH r.headers "accept-encoding" }

/-- The result of one sub-step that may touch the store and the upstream
pipeline: the store afterwards, the upstream requests sent (in order),
and the step's result. -/
structure StepOut (P R : Type) : Type where
  store : Store P
  sent : List ReqParts
  result : Except ProxyError R

/--
Model of `CacheProxy::req_upstream`: rewrite the URI to scheme `https` and the
pinned authority, force `User-Agent: curl`, send on the upstream
pipeline, drop `Content-Encoding` from the response headers, and collect
the body to bytes.  Returns the request actually sent together with the
result.
-/
def req_upstream {P SB : Type} (env : ProxyEnv P SB) (authority : Authority)
    (req : ReqParts) : ReqParts × Except ProxyError (RespParts × Bytes) :=
  let req1 : ReqParts :=
    { req with
      uri := { req.uri with scheme := some "https", authority := some authority }
      headers := insertH req.headers "user-agent" "curl" }
  (req1,
    match env.upstreamCall req1 with
    | .fail e => .error (.upstream e)
    | .respond parts bodyRes =>
        let parts1 : RespParts :=
          { parts with headers := removeH parts.headers "content-encoding" }
        match bodyRes with
        | .error e => .error (.boxedUpstream e)
        | .ok b => .ok (parts1, b))

/-- Outcome of the whole `call`: final store, the requests sent on the
forwarded pipeline, the requests sent on the upstream pipeline, and the
service result. -/
structure CallOut (P SB : Type) : Type where
  store : Store P
  sentForward : List ReqParts
  sentUpstream : List ReqParts
  result : Except ProxyError (CachedResponse SB)

/-- Model of `CacheProxy::forward`: rewrite the authority (failing the future
immediately on error, before anything is sent) and send the request on
the forwarded pipeline; the response body streams through. -/
def forward {P SB : Type} (env : ProxyEnv P SB) (cp : CacheProxy P)
    (req : ReqParts) : CallOut P SB :=
  match add_uri_authority cp.authority env.parseAuth req with
  | .error e =>
      { store := cp.store, sentForward := [], sentUpstream := [], result := .error e }
  | .ok pts =>
      { store := cp.store
        sentForward := [pts]
        sentUpstream := []
        result :=
          match env.forwardCall pts with
          | .error e => .error (.upstream e)
          | .ok (rp, sb) => .ok { parts := rp, body := .stream sb } }

/-- Model of `CacheProxy::cached_or_forward`: serve the entry if the policy says
`Fresh` for the normalized request, else forward the original request. -/
def cached_or_forward {P SB : Type} (env : ProxyEnv P SB) (cp : CacheProxy P)
    (entry : CacheEntry P) (origReq normReq : ReqParts) (now : Nat) : CallOut P SB :=
  match env.beforeRequest entry.policy normReq now with
  | .fresh parts =>
      { store := cp.store, sentForward := [], sentUpstream := []
        result := .ok (cachedResponse parts entry.body) }
  | .stale _ _ => forward env cp origReq

/-- The request `update_entry` evaluates the policy against:
`Request::get(key).header(HOST, authority)`. -/
def keyRequest (authority : Authority) (key : String) : ReqParts :=
  { method := .GET
    uri := { scheme := none, authority := none, pathQuery := some key }
    headers := [("host", authority)] }

/--
Model of `CacheProxy::update_entry`: when the policy deems the entry stale it
issues the policy's conditional request upstream; on success it
classifies the response (`Modified` replaces the body, `NotModified`
keeps it), writes the new entry back, and returns it.  An upstream
failure propagates before any write.  (The `Fresh` branch returns the
entry unchanged.)
-/
def update_entry {P SB : Type} (env : ProxyEnv P SB) (cp : CacheProxy P)
    (key : String) (entry : CacheEntry P) (now1 now2 : Nat) :
    StepOut P (CacheEntry P) :=
  match env.beforeRequest entry.policy (keyRequest cp.authority key) now1 with
  | .fresh _ => { store := cp.store, sent := [], result := .ok entry }
  | .stale _ request =>
      let sr := req_upstream env cp.authority request
      match sr.2 with
      | .error e => { store := cp.store, sent := [sr.1], result := .error e }
      | .ok (resp, updBody) =>
          let entry1 : CacheEntry P :=
            match env.afterResponse entry.policy request resp now2 with
            | .modified p1 => { policy := p1, body := updBody }
            | .notModified p1 => { policy := p1, body := entry.body }
          { store := cp.store.write key entry1, sent := [sr.1], result := .ok entry1 }

/--
Model of `CacheProxy::get_missing`: build `Request::get(uri).header(HOST,
authority)`, fetch it upstream, construct a new policy from that request
and the response, write the entry, and return it.
-/
def get_missing {P SB : Type} (env : ProxyEnv P SB) (cp : CacheProxy P)
    (key : String) (uri : Uri) : StepOut P (CacheEntry P) :=
  let upstreamReq : ReqParts :=
    { method := .GET, uri := uri, headers := [("host", cp.authority)] }
  let sr := req_upstream env cp.authority upstreamReq
  match sr.2 with
  | .error e => { store := cp.store, sent := [sr.1], result := .error e }
  | .ok (parts, body) =>
      let entry : CacheEntry P := { policy := env.mkPolicy upstreamReq parts, body := body }
      { store := cp.store.write key entry, sent := [sr.1], result := .ok entry }

/--
Model of `Service::call` for `CacheProxy`: non-cacheable requests are forwarded;
otherwise the request is normalized (`Accept-Encoding` removed), the
store is consulted under the normalized key, and the dispatch table of
the spec runs: miss → fetch then serve-or-forward; hit not storable →
forward; hit fresh → serve cached; hit stale non-matching → forward; hit
stale matching → revalidate, write back, then serve-or-forward.  The
instants `t1 t2 t3 t4` are the successive `SystemTime::now()` readings.
-/
def call {P SB : Type} (env : ProxyEnv P SB) (cp : CacheProxy P) (req : ReqParts)
    (t1 t2 t3 t4 : Nat) : CallOut P SB :=
  if ¬ should_cache_req req then forward env cp req
  else
    let norm := normalize req
    let key := cache_key norm
    match cp.store.read key with
    | some entry =>
        if ¬ env.isStorable entry.policy then forward env cp req
        else
          match env.beforeRequest entry.policy norm t1 with
          | .fresh parts =>
              { store := cp.store, sentForward := [], sentUpstream := []
                result := .ok (cachedResponse parts entry.body) }
          | .stale false _ => forward env cp req
          | .stale true _ =>
              let u := update_entry env cp key entry t2 t3
              match u.result with
              | .error e =>
                  { store := u.store, sentForward := [], sentUpstream := u.sent
                    result := .error e }
              | .ok entry1 =>
                  let o := cached_or_forward env { cp with store := u.store }
                    entry1 req norm t4
                  { o with sentUpstream := u.sent ++ o.sentUpstream }
    | none =>
        let u := get_missing env cp key norm.uri
        match u.result with
        | .error e =>
            { store := u.store, sentForward := [], sentUpstream := u.sent
              result := .error e }
        | .ok entry1 =>
            let o := cached_or_forward env { cp with store := u.store } entry1 req norm t4
            { o with sentUpstream := u.sent ++ o.sentUpstream }

/-- The status `map_result` (in `main.rs`) assigns to each error kind. -/
def statusOf : ProxyError → Nat
  | .missingHost | .invalidHost _ | .unexpectedHost _ | .invalidUri | .invalidPath _ => 400
  | .upstream _ | .boxedUpstream _ => 502
  | .readCache _ | .writeCache _ | .decode _ => 500

/-- The plain-text body `map_result` renders: `anyhow`'s debug formatting
prints the error's `Display` line (for errors with a source it then
appends a cause chain; of the claims only `unexpectedHost`, which has no
source, depends on this text, and its rendering is exact). -/
def renderError : ProxyError → String
  | .missingHost => "missing host header"
  | .invalidHost v => "invalid host " ++ v
  | .unexpectedHost a => "unexpected host " ++ a
  | .invalidUri => "invalid uri"
  | .invalidPath p => "invalid path " ++ p
  | .upstream e => "failed to send request to upstream: " ++ e
  | .boxedUpstream e => "failed to send request to upstream: " ++ e
  | .readCache e => "failed to read cache: " ++ e
  | .writeCache e => "failed to write cache: " ++ e
  | .decode e => "failed to decode cache entry: " ++ e

/-- String bytes for response bodies. -/
def strBytes (s : String) : Bytes :=
  s.data.map Char.toNat

/-- Model of `map_result`: pass successes through; turn each error into a
plain-text response with the mapped status and the debug-rendered body. -/
def map_result {SB : Type} (r : Except ProxyError (CachedResponse SB)) :
    CachedResponse SB :=
  match r with
  | .ok v => v
  | .error e =>
      { parts := { status := statusOf e
                   headers := [("content-type", "text/plain")] }
        body := .full (strBytes (renderError e)) }

end LocalCdnProxy

namespace LocalCdnProxy

/-- Shape of every request sent on the upstream (decompression) pipeline:
scheme `https`, pinned authority, `User-Agent: curl`. -/
def upstreamShape (a : Authority) (r : ReqParts) : Prop :=
  r.uri.scheme = some "https" ∧ r.uri.authority = some a ∧
    getH r.headers "user-agent" = some "curl"

/-- Shape of every request sent on the forwarded pipeline: scheme `https`
and pinned authority (the headers pass through unchanged). -/
def forwardShape (a : Authority) (r : ReqParts) : Prop :=
  r.uri.scheme = some "https" ∧ r.uri.authority = some a

theorem getH_insertH (h : Headers) (n v : String) :
    getH (insertH h n v) n = some v := by
  simp [getH, insertH, List.find?]

theorem Store.read_write_self {P : Type} (s : Store P) (k : String) (e : CacheEntry P) :
    (s.write k e).read k = some e := by
  simp [Store.read, Store.write, List.find?]

theorem req_upstream_shape {P SB : Type} (env : ProxyEnv P SB) (a : Authority)
    (req : ReqParts) : upstreamShape a (req_upstream env a req).1 := by
  refine ⟨rfl, rfl, ?_⟩
  exact getH_insertH req.headers "user-agent" "curl"

theorem add_uri_ok_shape (a : Authority) (pa : String → Option Authority)
    (pts pts1 : ReqParts) (h : add_uri_authority a pa pts = .ok pts1) :
    forwardShape a pts1 ∧ pts1.headers = pts.headers := by
  unfold add_uri_authority at h
  split at h
  · exact Except.noConfusion h
  · split at h
    · exact Except.noConfusion h
    · split at h
      · exact Except.noConfusion h
      · rename_i host hne
        push_neg at hne
        cases h
        exact ⟨⟨rfl, by rw [hne]⟩, rfl⟩

theorem add_uri_mismatch (a : Authority) (pa : String → Option Authority)
    (pts : ReqParts) (hv : String) (b : Authority)
    (h1 : getH pts.headers "host" = some hv) (h2 : pa hv = some b) (h3 : b ≠ a) :
    add_uri_authority a pa pts = .error (.unexpectedHost b) := by
  simp only [add_uri_authority, h1, h2, if_pos h3]

theorem forward_sentUpstream {P SB : Type} (env : ProxyEnv P SB) (cp : CacheProxy P)
    (q : ReqParts) : (forward env cp q).sentUpstream = [] := by
  unfold forward
  cases add_uri_authority cp.authority env.parseAuth q <;> rfl

theorem forward_store {P SB : Type} (env : ProxyEnv P SB) (cp : CacheProxy P)
    (q : ReqParts) : (forward env cp q).store = cp.store := by
  unfold forward
  cases add_uri_authority cp.authority env.parseAuth q <;> rfl

theorem forward_sentForward_shape {P SB : Type} (env : ProxyEnv P SB)
    (cp : CacheProxy P) (q : ReqParts) :
    ∀ r ∈ (forward env cp q).sentForward, forwardShape cp.authority r := by
  intro r hr
  unfold forward at hr
  cases h : add_uri_authority cp.authority env.parseAuth q with
  | error e => rw [h] at hr; simp at hr
  | ok pts =>
      rw [h] at hr
      simp only [List.mem_singleton] at hr
      subst hr
      exact (add_uri_ok_shape _ _ _ _ h).1

theorem forward_mismatch {P SB : Type} (env : ProxyEnv P SB) (cp : CacheProxy P)
    (q : ReqParts) (hv : String) (b : Authority)
    (h1 : getH q.headers "host" = some hv) (h2 : env.parseAuth hv = some b)
    (h3 : b ≠ cp.authority) :
    forward env cp q =
      { store := cp.store, sentForward := [], sentUpstream := []
        result := .error (.unexpectedHost b) } := by
  unfold forward
  rw [add_uri_mismatch cp.authority env.parseAuth q hv b h1 h2 h3]

theorem cached_or_forward_sentUpstream {P SB : Type} (env : ProxyEnv P SB)
    (cp : CacheProxy P) (entry : CacheEntry P) (origReq normReq : ReqParts) (now : Nat) :
    (cached_or_forward env cp entry origReq normReq now).sentUpstream = [] := by
  unfold cached_or_forward
  cases env.beforeRequest entry.policy normReq now with
  | fresh parts => rfl
  | stale m r => exact forward_sentUpstream env cp origReq

theorem cached_or_forward_store {P SB : Type} (env : ProxyEnv P SB)
    (cp : CacheProxy P) (entry : CacheEntry P) (origReq normReq : ReqParts) (now : Nat) :
    (cached_or_forward env cp entry origReq normReq now).store = cp.store := by
  unfold cached_or_forward
  cases env.beforeRequest entry.policy normReq now with
  | fresh parts => rfl
  | stale m r => exact forward_store env cp origReq

theorem cached_or_forward_sentForward_shape {P SB : Type} (env : ProxyEnv P SB)
    (st : Store P) (a : Authority) (entry : CacheEntry P) (origReq normReq : ReqParts)
    (now : Nat) :
    ∀ r ∈ (cached_or_forward env ⟨st, a⟩ entry origReq normReq now).sentForward,
      forwardShape a r := by
  intro r hr
  unfold cached_or_forward at hr
  cases hb : env.beforeRequest entry.policy normReq now with
  | fresh parts => rw [hb] at hr; simp at hr
  | stale m rq =>
      rw [hb] at hr
      exact forward_sentForward_shape env ⟨st, a⟩ origReq r hr

theorem update_entry_sent_shape {P SB : Type} (env : ProxyEnv P SB) (cp : CacheProxy P)
    (key : String) (entry : CacheEntry P) (now1 now2 : Nat) :
    ∀ r ∈ (update_entry env cp key entry now1 now2).sent,
      upstreamShape cp.authority r := by
  intro r hr
  unfold update_entry at hr
  split at hr
  · simp at hr
  · simp only [] at hr
    split at hr
    · simp only [List.mem_singleton] at hr
      subst hr
      exact req_upstream_shape env cp.authority _
    · simp only [List.mem_singleton] at hr
      subst hr
      exact req_upstream_shape env cp.authority _

theorem get_missing_sent_shape {P SB : Type} (env : ProxyEnv P SB) (cp : CacheProxy P)
    (key : String) (uri : Uri) :
    ∀ r ∈ (get_missing env cp key uri).sent, upstreamShape cp.authority r := by
  intro r hr
  unfold get_missing at hr
  simp only [] at hr
  split at hr
  · simp only [List.mem_singleton] at hr
    subst hr
    exact req_upstream_shape env cp.authority _
  · simp only [List.mem_singleton] at hr
    subst hr
    exact req_upstream_shape env cp.authority _

end LocalCdnProxy

namespace LocalCdnProxy

/--
Claim C2 (amended): every request the proxy sends on the upstream
(decompression) pipeline — the cache-miss fetch and the revalidation —
has scheme `https`, the pinned authority, and `User-Agent: curl`; every
request sent on the forwarded pipeline has scheme `https` and the pinned
authority, but its headers (including `User-Agent`) pass through from the
client unchanged.
-/
theorem upstream_request_shape {P SB : Type} (env : ProxyEnv P SB) (cp : CacheProxy P)
    (req : ReqParts) (t1 t2 t3 t4 : Nat) :
    (∀ r ∈ (call env cp req t1 t2 t3 t4).sentUpstream, upstreamShape cp.authority r) ∧
    (∀ r ∈ (call env cp req t1 t2 t3 t4).sentForward, forwardShape cp.authority r) := by
  constructor
  · intro r hr
    unfold call at hr
    split at hr
    · rw [forward_sentUpstream] at hr
      simp at hr
    · simp only [] at hr
      split at hr
      · split at hr
        · rw [forward_sentUpstream] at hr
          simp at hr
        · split at hr
          · simp at hr
          · rw [forward_sentUpstream] at hr
            simp at hr
          · split at hr
            · exact update_entry_sent_shape env cp _ _ t2 t3 r hr
            · simp only [List.mem_append] at hr
              cases hr with
              | inl h => exact update_entry_sent_shape env cp _ _ t2 t3 r h
              | inr h =>
                  rw [cached_or_forward_sentUpstream] at h
                  simp at h
      · split at hr
        · exact get_missing_sent_shape env cp _ _ r hr
        · simp only [List.mem_append] at hr
          cases hr with
          | inl h => exact get_missing_sent_shape env cp _ _ r h
          | inr h =>
              rw [cached_or_forward_sentUpstream] at h
              simp at h
  · intro r hr
    unfold call at hr
    split at hr
    · exact forward_sentForward_shape env cp req r hr
    · simp only [] at hr
      split at hr
      · split at hr
        · exact forward_sentForward_shape env cp req r hr
        · split at hr
          · simp at hr
          · exact forward_sentForward_shape env cp req r hr
          · split at hr
            · simp at hr
            · exact cached_or_forward_sentForward_shape env _ cp.authority _ req _ t4 r hr
      · split at hr
        · simp at hr
        · exact cached_or_forward_sentForward_shape env _ cp.authority _ req _ t4 r hr

end LocalCdnProxy

namespace LocalCdnProxy

theorem cached_or_forward_mismatch_sentForward {P SB : Type} (env : ProxyEnv P SB)
    (st : Store P) (a : Authority) (entry : CacheEntry P) (origReq normReq : ReqParts)
    (now : Nat) (hv : String) (b : Authority)
    (h1 : getH origReq.headers "host" = some hv) (h2 : env.parseAuth hv = some b)
    (h3 : b ≠ a) :
    (cached_or_forward env ⟨st, a⟩ entry origReq normReq now).sentForward = [] := by
  unfold cached_or_forward
  cases hb : env.beforeRequest entry.policy normReq now with
  | fresh parts => rfl
  | stale m rq =>
      rw [forward_mismatch env ⟨st, a⟩ origReq hv b h1 h2 h3]

theorem get_missing_sent_length {P SB : Type} (env : ProxyEnv P SB) (cp : CacheProxy P)
    (key : String) (uri : Uri) : (get_missing env cp key uri).sent.length = 1 := by
  unfold get_missing
  simp only []
  split <;> rfl

/--
Claim C3 (amended): for a client request whose `Host` header parses as an
authority different from the pinned one, the client's request is never
forwarded upstream; when the request is not cacheable (the forward path),
the proxy sends nothing at all and responds with status 400 and the debug
rendering `unexpected host <authority>` (not the literal variant name
`UnexpectedHost`); on the cache-miss path, however, a synthesized request
carrying the pinned authority is sent upstream before the host mismatch
is detected (as the comment in `CacheProxy::call`'s miss branch records).
-/
theorem host_mismatch_behavior {P SB : Type} (env : ProxyEnv P SB) (cp : CacheProxy P)
    (req : ReqParts) (t1 t2 t3 t4 : Nat) (hv : String) (b : Authority)
    (h1 : getH req.headers "host" = some hv)
    (h2 : env.parseAuth hv = some b)
    (h3 : b ≠ cp.authority) :
    (call env cp req t1 t2 t3 t4).sentForward = [] ∧
    (should_cache_req req = false →
      call env cp req t1 t2 t3 t4 =
        { store := cp.store, sentForward := [], sentUpstream := []
          result := .error (.unexpectedHost b) } ∧
      map_result (call env cp req t1 t2 t3 t4).result =
        { parts := { status := 400, headers := [("content-type", "text/plain")] }
          body := .full (strBytes ("unexpected host " ++ b)) }) ∧
    (should_cache_req req = true →
      cp.store.read (cache_key (normalize req)) = none →
      (call env cp req t1 t2 t3 t4).sentUpstream.length = 1) := by
  have hfm : forward env cp req =
      { store := cp.store, sentForward := [], sentUpstream := []
        result := .error (.unexpectedHost b) } :=
    forward_mismatch env cp req hv b h1 h2 h3
  refine ⟨?_, ?_, ?_⟩
  · unfold call
    split
    · rw [hfm]
    · simp only []
      split
      · split
        · rw [hfm]
        · split
          · rfl
          · rw [hfm]
          · split
            · rfl
            · simp only []
              exact cached_or_forward_mismatch_sentForward env _ cp.authority _ req _
                t4 hv b h1 h2 h3
      · split
        · rfl
        · simp only []
          exact cached_or_forward_mismatch_sentForward env _ cp.authority _ req _
            t4 hv b h1 h2 h3
  · intro hsc
    have hcall : call env cp req t1 t2 t3 t4 = forward env cp req := by
      unfold call
      rw [if_pos]
      rw [hsc]
      exact Bool.false_ne_true
    rw [hcall, hfm]
    exact ⟨rfl, rfl⟩
  · intro hsc hread
    unfold call
    rw [if_neg (by rw [hsc]; exact fun h => h rfl)]
    simp only [hread]
    split
    · rename_i e heq
      have hlen := get_missing_sent_length env cp (cache_key (normalize req)) (normalize req).uri
      revert heq
      generalize get_missing env cp (cache_key (normalize req)) (normalize req).uri = u at hlen
      intro heq
      simpa using hlen
    · rename_i entry1 heq
      have hlen := get_missing_sent_length env cp (cache_key (normalize req)) (normalize req).uri
      rw [cached_or_forward_sentUpstream]
      simpa using hlen

end LocalCdnProxy

namespace LocalCdnProxy

theorem update_entry_read {P SB : Type} (env : ProxyEnv P SB) (cp : CacheProxy P)
    (key : String) (entry entry1 : CacheEntry P) (now1 now2 : Nat)
    (hread : cp.store.read key = some entry)
    (hu : (update_entry env cp key entry now1 now2).result = .ok entry1) :
    (update_entry env cp key entry now1 now2).store.read key = some entry1 := by
  unfold update_entry at hu ⊢
  split at hu
  · cases hu
    exact hread
  · simp only [] at hu ⊢
    split at hu
    · exact Except.noConfusion hu
    · cases hu
      exact Store.read_write_self cp.store key _

/--
Claim C5: for a cache hit (storable entry) whose policy verdict for the
normalized request is `Fresh` — either on the initial lookup or after the
entry was revalidated and written back — the response is the cached body
bytes with `Cache-Control: no-store` set on the response headers, and in
the revalidated case the body served is exactly the entry now stored
under the key.
-/
theorem fresh_hit_serves_cached {P SB : Type} (env : ProxyEnv P SB) (cp : CacheProxy P)
    (req : ReqParts) (t1 t2 t3 t4 : Nat) (entry : CacheEntry P)
    (hc : should_cache_req req = true)
    (hread : cp.store.read (cache_key (normalize req)) = some entry)
    (hs : env.isStorable entry.policy = true) :
    (∀ parts, env.beforeRequest entry.policy (normalize req) t1 = .fresh parts →
      (call env cp req t1 t2 t3 t4).result
          = .ok (cachedResponse parts entry.body) ∧
      getH (cachedResponse parts entry.body : CachedResponse SB).parts.headers
          "cache-control" = some "no-store") ∧
    (∀ rq entry1 parts2,
      env.beforeRequest entry.policy (normalize req) t1 = .stale true rq →
      (update_entry env cp (cache_key (normalize req)) entry t2 t3).result = .ok entry1 →
      env.beforeRequest entry1.policy (normalize req) t4 = .fresh parts2 →
      (call env cp req t1 t2 t3 t4).result = .ok (cachedResponse parts2 entry1.body) ∧
      (call env cp req t1 t2 t3 t4).store.read (cache_key (normalize req)) = some entry1 ∧
      getH (cachedResponse parts2 entry1.body : CachedResponse SB).parts.headers
          "cache-control" = some "no-store") := by
  have hnc : ¬ (¬ should_cache_req req) := by
    rw [hc]; exact fun h => h rfl
  constructor
  · intro parts hf
    constructor
    · unfold call
      rw [if_neg hnc]
      simp only [hread, hs, Bool.not_true, Bool.false_eq_true, if_neg, hf]
      rfl
    · exact getH_insertH parts.headers "cache-control" "no-store"
  · intro rq entry1 parts2 hst hu hf2
    have hcall : call env cp req t1 t2 t3 t4 =
        { store := (update_entry env cp (cache_key (normalize req)) entry t2 t3).store
          sentForward := []
          sentUpstream :=
            (update_entry env cp (cache_key (normalize req)) entry t2 t3).sent ++ []
          result := .ok (cachedResponse parts2 entry1.body) } := by
      unfold call
      rw [if_neg hnc]
      simp only [hread, hs, Bool.not_true, Bool.false_eq_true, if_neg, hst, hu]
      unfold cached_or_forward
      simp only [hf2]
      simp
    refine ⟨?_, ?_, ?_⟩
    · rw [hcall]
    · rw [hcall]
      exact update_entry_read env cp _ entry entry1 t2 t3 hread hu
    · exact getH_insertH parts2.headers "cache-control" "no-store"

/--
Claim C9: when revalidation's conditional upstream request fails —
connection or HTTP error, or a failure while collecting the body — no
cache write happens (the store is exactly what it was) and the error is
returned to the caller.
-/
theorem update_entry_failure_no_write {P SB : Type} (env : ProxyEnv P SB)
    (cp : CacheProxy P) (key : String) (entry : CacheEntry P) (now1 now2 : Nat)
    (m : Bool) (rq : ReqParts) (e : ProxyError)
    (hb : env.beforeRequest entry.policy (keyRequest cp.authority key) now1
        = .stale m rq)
    (hf : (req_upstream env cp.authority rq).2 = .error e) :
    (update_entry env cp key entry now1 now2).store = cp.store ∧
    (update_entry env cp key entry now1 now2).result = .error e := by
  unfold update_entry
  simp only [hb, hf]
  simp

end LocalCdnProxy

namespace LocalCdnProxy

/-- A concrete environment for evaluating runs: every host string parses
to itself, entries are storable, the policy always answers `Stale` with a
conditional request, revalidation responses count as `NotModified`, the
upstream responds `200` with body `[1, 2]`, the forwarded pipeline
responds `200` with a streamed body. -/
def exEnv : ProxyEnv Unit Unit :=
  { parseAuth := fun s => some s
    isStorable := fun _ => true
    beforeRequest := fun _ _ _ => .stale true (keyRequest "origin.example" "/pkg")
    afterResponse := fun _ _ _ _ => .notModified ()
    mkPolicy := fun _ _ => ()
    upstreamCall := fun _ => .respond { status := 200, headers := [] } (.ok [1, 2])
    forwardCall := fun _ => .ok ({ status := 200, headers := [] }, ()) }

/-- A proxy pinned to `origin.example` with an empty cache. -/
def exProxy : CacheProxy Unit := { store := [], authority := "origin.example" }

/-- A non-cacheable client request: POST to the pinned host with
`User-Agent: mozilla`. -/
def exPostReq : ReqParts :=
  { method := .POST
    uri := { scheme := none, authority := none, pathQuery := some "/pkg" }
    headers := [("host", "origin.example"), ("user-agent", "mozilla")] }

/-- A cacheable GET to the pinned host. -/
def exGetReq : ReqParts :=
  { method := .GET
    uri := { scheme := none, authority := none, pathQuery := some "/pkg" }
    headers := [("host", "origin.example")] }

/-- A cacheable GET whose `Host` differs from the pinned authority. -/
def exBadHostReq : ReqParts :=
  { method := .GET
    uri := { scheme := none, authority := none, pathQuery := some "/pkg" }
    headers := [("host", "other.example")] }

/--
Claim C2 (counterexample): a POST forwarded to the upstream keeps the
client's `User-Agent: mozilla` — the forwarded path never sets
`User-Agent: curl`, so the claim that every upstream request carries
`User-Agent: curl` fails on the forwarded path.
-/
theorem forwarded_user_agent_not_curl :
    (call exEnv exProxy exPostReq 0 0 0 0).sentForward.map
        (fun r => getH r.headers "user-agent") = [some "mozilla"] ∧
    some "mozilla" ≠ some ("curl" : String) := by
  refine ⟨by decide, by decide⟩

/-- The one request `call exEnv exProxy exGetReq` sends upstream. -/
def exSentUp : ReqParts :=
  { method := .GET
    uri := { scheme := some "https", authority := some "origin.example"
             pathQuery := some "/pkg" }
    headers := [("user-agent", "curl"), ("host", "origin.example")] }

/-- The one request `call exEnv exProxy exPostReq` forwards. -/
def exSentFwd : ReqParts :=
  { method := .POST
    uri := { scheme := some "https", authority := some "origin.example"
             pathQuery := some "/pkg" }
    headers := [("host", "origin.example"), ("user-agent", "mozilla")] }

/-- Witness for `upstream_request_shape` at the concrete runs above. -/
theorem upstream_request_shape_witness :
    upstreamShape "origin.example" exSentUp ∧ forwardShape "origin.example" exSentFwd :=
  ⟨(upstream_request_shape exEnv exProxy exGetReq 0 0 0 0).1 exSentUp (by decide),
   (upstream_request_shape exEnv exProxy exPostReq 0 0 0 0).2 exSentFwd (by decide)⟩

/--
Claim C3 (counterexample): a cacheable GET with `Host: other.example`
against a proxy pinned to `origin.example` and an empty cache does send a
request to the upstream (the miss-path fetch), though the claim says no
request is sent; the eventual error body is the rendering
`unexpected host other.example`, which does not contain the string
`UnexpectedHost`.
-/
theorem host_mismatch_counterexample :
    (call exEnv exProxy exBadHostReq 0 0 0 0).sentUpstream.length = 1 ∧
    (call exEnv exProxy exBadHostReq 0 0 0 0).result
        = .error (.unexpectedHost "other.example") ∧
    ¬ ("UnexpectedHost".data <:+:
        (renderError (.unexpectedHost "other.example")).data) := by
  refine ⟨by decide, by decide, by decide⟩

/-- Witness for `host_mismatch_behavior` at the concrete run above. -/
theorem host_mismatch_behavior_witness :
    (call exEnv exProxy exBadHostReq 0 0 0 0).sentForward = [] ∧
    (call exEnv exProxy exBadHostReq 0 0 0 0).sentUpstream.length = 1 := by
  have h := host_mismatch_behavior exEnv exProxy exBadHostReq 0 0 0 0
    "other.example" "other.example" (by decide) rfl (by decide)
  exact ⟨h.1, h.2.2 (by decide) (by decide)⟩

end LocalCdnProxy

namespace LocalCdnProxy

/-- Environment whose policy verdict is always `Fresh` with a `200`
response; no network call succeeds (none is needed). -/
def exFreshEnv : ProxyEnv Unit Unit :=
  { parseAuth := fun s => some s
    isStorable := fun _ => true
    beforeRequest := fun _ _ _ => .fresh { status := 200, headers := [] }
    afterResponse := fun _ _ _ _ => .notModified ()
    mkPolicy := fun _ _ => ()
    upstreamCall := fun _ => .fail "unused"
    forwardCall := fun _ => .error "unused" }

/-- Environment whose policy says `Stale` at instants up to 2 and `Fresh`
afterwards; revalidation responses count as `Modified` with body `[7]`. -/
def exRevalEnv : ProxyEnv Unit Unit :=
  { parseAuth := fun s => some s
    isStorable := fun _ => true
    beforeRequest := fun _ _ t =>
      if t ≤ 2 then .stale true (keyRequest "origin.example" "/pkg")
      else .fresh { status := 200, headers := [] }
    afterResponse := fun _ _ _ _ => .modified ()
    mkPolicy := fun _ _ => ()
    upstreamCall := fun _ => .respond { status := 200, headers := [] } (.ok [7])
    forwardCall := fun _ => .error "unused" }

/-- Environment whose policy says `Stale` and whose upstream always fails
to connect. -/
def exFailEnv : ProxyEnv Unit Unit :=
  { parseAuth := fun s => some s
    isStorable := fun _ => true
    beforeRequest := fun _ _ _ => .stale true (keyRequest "origin.example" "/pkg")
    afterResponse := fun _ _ _ _ => .notModified ()
    mkPolicy := fun _ _ => ()
    upstreamCall := fun _ => .fail "boom"
    forwardCall := fun _ => .error "unused" }

/-- A proxy whose cache holds body `[5, 6]` under key `/pkg`. -/
def exProxyHit : CacheProxy Unit :=
  { store := [("/pkg", { policy := (), body := [5, 6] })]
    authority := "origin.example" }

/-- Witness for `fresh_hit_serves_cached`: an initial-lookup `Fresh` hit
serves `[5, 6]`, and a revalidated (`Modified`, body `[7]`) entry served
`Fresh` on the re-check serves `[7]`, which is also what is now stored. -/
theorem fresh_hit_serves_cached_witness :
    ((call exFreshEnv exProxyHit exGetReq 0 0 0 0).result
        = .ok (cachedResponse { status := 200, headers := [] } [5, 6]) ∧
      getH (cachedResponse { status := 200, headers := [] } [5, 6]
          : CachedResponse Unit).parts.headers "cache-control" = some "no-store") ∧
    ((call exRevalEnv exProxyHit exGetReq 0 1 2 3).result
        = .ok (cachedResponse { status := 200, headers := [] } [7]) ∧
      (call exRevalEnv exProxyHit exGetReq 0 1 2 3).store.read
          (cache_key (normalize exGetReq))
        = some { policy := (), body := [7] } ∧
      getH (cachedResponse { status := 200, headers := [] } [7]
          : CachedResponse Unit).parts.headers "cache-control" = some "no-store") :=
  ⟨(fresh_hit_serves_cached exFreshEnv exProxyHit exGetReq 0 0 0 0
      { policy := (), body := [5, 6] } (by decide) (by decide) (by decide)).1
      { status := 200, headers := [] } rfl,
   (fresh_hit_serves_cached exRevalEnv exProxyHit exGetReq 0 1 2 3
      { policy := (), body := [5, 6] } (by decide) (by decide) (by decide)).2
      (keyRequest "origin.example" "/pkg") { policy := (), body := [7] }
      { status := 200, headers := [] } (by decide) (by decide) (by decide)⟩

/-- Witness for `update_entry_failure_no_write`: a failing conditional
fetch leaves the store unchanged and returns the upstream error. -/
theorem update_entry_failure_no_write_witness :
    (update_entry exFailEnv exProxyHit "/pkg"
        { policy := (), body := [5, 6] } 0 0).store = exProxyHit.store ∧
    (update_entry exFailEnv exProxyHit "/pkg"
        { policy := (), body := [5, 6] } 0 0).result = .error (.upstream "boom") :=
  update_entry_failure_no_write exFailEnv exProxyHit "/pkg"
    { policy := (), body := [5, 6] } 0 0 true (keyRequest "origin.example" "/pkg")
    (.upstream "boom") rfl rfl

end LocalCdnProxy
